import Mathlib

/-!
# Dispute-resolution deployment script and contract surface

Shallow embedding of `scripts/deploy.js` (the function `main` and the
top-level `main().then(...).catch(...)` handler) and of the contract call
surface exercised by `test/DisputeResolution.test.js`.

The script talks to the Hardhat runtime environment `hre`.  The runtime is a
parameter of the embedding: it fixes the network name, the value of
`ethers.utils.parseEther`, the address at which a deployment lands, and
how each awaited call (factory lookup, deployment, confirmation wait, task
run) settles: it resolves, it rejects, or it never settles.  The synchronous
statements of the script (`console.log`, `parseEther` on the literal "0.1",
reading `hre.network.name`) do not throw.
Every effect the script performs is recorded, in program order, in a list of
`Effect`s; `await` makes the script sequential, so program order is execution
order.
-/

namespace DisputeResolution

/-! ## Values and effects of the deployment script -/

/-- An account or contract address. -/
abbrev Address := Nat

/-- A thrown JavaScript error (the rejection reason of an awaited promise). -/
abbrev Err := String

/-- The ways an awaited promise fails to resolve: it rejects with an error,
or it never settles.  A script waiting on a promise that never settles is
suspended for good; `keepsAlive` tells whether the runtime then still has
work scheduled (a polling timer, an open socket), which keeps the process
up, or has none, so that the event loop drains. -/
inductive Stop where
  | rejected (error : Err)
  | pending (keepsAlive : Bool)
deriving DecidableEq, Repr

/-- A constructor argument handed to `Factory.deploy(...)`. -/
inductive Arg where
  | address (a : Address)
  | uint (n : Nat)
deriving DecidableEq, Repr

/-- The awaited calls the script makes on the runtime; each may resolve,
reject or never settle. -/
inductive Call where
  | getContractFactory (name : String)
  | deploy (name : String) (args : List Arg)
  | deployed (name : String) (address : Address)
  | run (task : String) (address : Address) (constructorArguments : List Arg)
deriving DecidableEq, Repr

/-- An observable effect of the process. -/
inductive Effect where
  | log (line : String) (value : Option Address)
  | call (c : Call)
  | error (e : Err)
  | exit (code : Nat)
deriving DecidableEq, Repr

/-- The Hardhat runtime environment the script runs against. -/
structure Hre where
  /-- The value of `hre.network.name`. -/
  networkName : String
  /-- The value of `hre.ethers.utils.parseEther`. -/
  parseEther : String → Nat
  /-- The address at which deploying the named contract with the given
  constructor arguments lands. -/
  address : String → List Arg → Address
  /-- The calls that do not resolve, with the way each of them stops the
  script; `none` for a call that resolves. -/
  stops : Call → Option Stop

/-- The runtime with the same values in which every call resolves. -/
def Hre.quiet (hre : Hre) : Hre :=
  { hre with stops := fun _ => none }

/-- What running a piece of the script produced: the effects performed, in
order, and either the value it returned or the way it stopped, by throwing an
error or by waiting on a promise that never settles. -/
structure Run (α : Type) where
  effects : List Effect
  result : Except Stop α

/-- A piece of script: a computation against the global `hre`. -/
def Script (α : Type) : Type := Hre → Run α

/-- Returning a value performs no effect. -/
def Script.pure {α : Type} (a : α) : Script α :=
  fun _ => ⟨[], .ok a⟩

/-- Sequencing: the continuation runs only when the first part returned. -/
def Script.bind {α β : Type} (m : Script α) (f : α → Script β) : Script β :=
  fun hre =>
    match m hre with
    | ⟨es, .ok a⟩ => ⟨es ++ (f a hre).effects, (f a hre).result⟩
    | ⟨es, .error e⟩ => ⟨es, .error e⟩

instance : Monad Script where
  pure := Script.pure
  bind := Script.bind

/-- An awaited call on the runtime: the call is issued, then it yields its
value, rejects, or never settles. -/
def await {α : Type} (c : Call) (value : α) : Script α :=
  fun hre =>
    match hre.stops c with
    | some e => ⟨[.call c], .error e⟩
    | none => ⟨[.call c], .ok value⟩

/-- The statement `console.log(line)` or `console.log(line, value)`. -/
def consoleLog (line : String) (value : Option Address) : Script Unit :=
  fun _ => ⟨[.log line value], .ok ()⟩

/-- A contract factory, the result of `getContractFactory`. -/
structure ContractFactory where
  name : String
deriving DecidableEq, Repr

/-- A contract instance, the result of `Factory.deploy`. -/
structure Contract where
  name : String
  address : Address
deriving DecidableEq, Repr

/-- The call `hre.ethers.getContractFactory(name)`. -/
def getContractFactory (name : String) : Script ContractFactory :=
  await (.getContractFactory name) ⟨name⟩

/-- The call `Factory.deploy(...args)`. -/
def ContractFactory.deploy (f : ContractFactory) (args : List Arg) : Script Contract :=
  fun hre => await (.deploy f.name args) ⟨f.name, hre.address f.name args⟩ hre

/-- The call `contract.deployed()`. -/
def Contract.deployed (c : Contract) : Script Unit :=
  await (.deployed c.name c.address) ()

/-- The call `hre.ethers.utils.parseEther(s)`. -/
def parseEther (s : String) : Script Nat :=
  fun hre => ⟨[], .ok (hre.parseEther s)⟩

/-- The value of `hre.network.name`. -/
def networkName : Script String :=
  fun hre => ⟨[], .ok hre.networkName⟩

/-- The call `hre.run(task, { address, constructorArguments })`. -/
def run (task : String) (address : Address) (constructorArguments : List Arg) :
    Script Unit :=
  await (.run task address constructorArguments) ()

/-- The function `main` of `scripts/deploy.js`. -/
def main : Script Unit := do
  consoleLog "Starting deployment..." none
  -- Deploy Evidence contract first
  let Evidence ← getContractFactory "Evidence"
  let evidence ← Evidence.deploy []
  evidence.deployed
  consoleLog "Evidence deployed to:" (some evidence.address)
  -- Deploy Arbitration contract
  let minimumStake ← parseEther "0.1"
  let Arbitration ← getContractFactory "Arbitration"
  let arbitration ← Arbitration.deploy [.uint minimumStake]
  arbitration.deployed
  consoleLog "Arbitration deployed to:" (some arbitration.address)
  -- Deploy Escrow contract
  let Escrow ← getContractFactory "Escrow"
  let escrow ← Escrow.deploy []
  escrow.deployed
  consoleLog "Escrow deployed to:" (some escrow.address)
  -- Deploy main DisputeResolution contract
  let DisputeResolution ← getContractFactory "DisputeResolution"
  let disputeResolution ← DisputeResolution.deploy
    [.address escrow.address, .address evidence.address, .address arbitration.address]
  disputeResolution.deployed
  consoleLog "DisputeResolution deployed to:" (some disputeResolution.address)
  -- Verify contracts on Etherscan
  let name ← networkName
  if name ≠ "hardhat" then
    consoleLog "Verifying contracts..." none
    run "verify:verify" disputeResolution.address
      [.address escrow.address, .address evidence.address, .address arbitration.address]

/-- What the process did: its effects in order and the status it ended with,
`none` when it never ends. -/
structure Outcome where
  effects : List Effect
  exitCode : Option Nat
deriving DecidableEq, Repr

/-- The top level of `scripts/deploy.js`:
`main().then(() => process.exit(0)).catch((error) => ...)`.
When the promise of `main` never settles neither handler runs and
`process.exit` is not called: the process stays up while the runtime keeps
work scheduled, and otherwise ends once the event loop has drained, with the
default status 0. -/
def deployScript (hre : Hre) : Outcome :=
  match main hre with
  | ⟨es, .ok _⟩ => ⟨es ++ [.exit 0], some 0⟩
  | ⟨es, .error (.rejected error)⟩ => ⟨es ++ [.error error, .exit 1], some 1⟩
  | ⟨es, .error (.pending true)⟩ => ⟨es, none⟩
  | ⟨es, .error (.pending false)⟩ => ⟨es, some 0⟩

/-- Fail-stop behaviour of a piece of script.  In the runtime where every
call resolves the piece returns a value; in the runtime itself it either
performs the very same effects and returns the same value, every call it
issued having resolved, or it stops right after the first call that does not
resolve, in the way that call stops it, having performed the effects of the
quiet run up to and including that call. -/
def FailStop {α : Type} (m : Script α) : Prop :=
  ∀ hre : Hre, ∃ a, (m hre.quiet).result = .ok a ∧
    (((m hre).result = .ok a ∧ (m hre).effects = (m hre.quiet).effects ∧
        ∀ c, Effect.call c ∈ (m hre).effects → hre.stops c = none) ∨
     (∃ e pre c post, (m hre).result = .error e ∧
        (m hre.quiet).effects = pre ++ Effect.call c :: post ∧
        (m hre).effects = pre ++ [Effect.call c] ∧ hre.stops c = some e ∧
        ∀ d, Effect.call d ∈ pre → hre.stops d = none))

/-! ## Names for the values of one run -/

/-- The minimum stake of the run: `parseEther("0.1")`. -/
def Hre.minimumStake (hre : Hre) : Nat := hre.parseEther "0.1"

/-- The address `Evidence.deploy()` lands at in this runtime. -/
def Hre.evidenceAddress (hre : Hre) : Address := hre.address "Evidence" []

/-- The address `Arbitration.deploy(minimumStake)` lands at in this runtime. -/
def Hre.arbitrationAddress (hre : Hre) : Address :=
  hre.address "Arbitration" [.uint hre.minimumStake]

/-- The address `Escrow.deploy()` lands at in this runtime. -/
def Hre.escrowAddress (hre : Hre) : Address := hre.address "Escrow" []

/-- The three addresses in the order (escrow, evidence, arbitration). -/
def Hre.wiring (hre : Hre) : List Arg :=
  [.address hre.escrowAddress, .address hre.evidenceAddress, .address hre.arbitrationAddress]

/-- The address `DisputeResolution.deploy(escrow, evidence, arbitration)`
lands at in this runtime. -/
def Hre.disputeResolutionAddress (hre : Hre) : Address :=
  hre.address "DisputeResolution" hre.wiring

/-- The effects of `main` up to and including the last deployment log line,
when every call resolves. -/
def deploymentEffects (hre : Hre) : List Effect :=
  [.log "Starting deployment..." none,
   .call (.getContractFactory "Evidence"),
   .call (.deploy "Evidence" []),
   .call (.deployed "Evidence" hre.evidenceAddress),
   .log "Evidence deployed to:" (some hre.evidenceAddress),
   .call (.getContractFactory "Arbitration"),
   .call (.deploy "Arbitration" [.uint hre.minimumStake]),
   .call (.deployed "Arbitration" hre.arbitrationAddress),
   .log "Arbitration deployed to:" (some hre.arbitrationAddress),
   .call (.getContractFactory "Escrow"),
   .call (.deploy "Escrow" []),
   .call (.deployed "Escrow" hre.escrowAddress),
   .log "Escrow deployed to:" (some hre.escrowAddress),
   .call (.getContractFactory "DisputeResolution"),
   .call (.deploy "DisputeResolution" hre.wiring),
   .call (.deployed "DisputeResolution" hre.disputeResolutionAddress),
   .log "DisputeResolution deployed to:" (some hre.disputeResolutionAddress)]

/-- The effects of the verification step. -/
def verificationEffects (hre : Hre) : List Effect :=
  [.log "Verifying contracts..." none,
   .call (.run "verify:verify" hre.disputeResolutionAddress hre.wiring)]

/-- The deployment named by an effect, with its constructor arguments. -/
def Effect.deployment? : Effect → Option (String × List Arg)
  | .call (.deploy name args) => some (name, args)
  | _ => none

/-- The verification request carried by an effect: the submitted address and
constructor arguments. -/
def Effect.verification? : Effect → Option (Address × List Arg)
  | .call (.run _ address constructorArguments) => some (address, constructorArguments)
  | _ => none

/-- Modelled from the spec: the local development networks, which the source
does not name.  The framework defines two, the in-process network `hardhat`
and the local node `localhost`. -/
def isLocalDevelopmentNetwork (name : String) : Bool :=
  name == "hardhat" || name == "localhost"

/-! ## Sample runtimes -/

/-- Addresses handed out by the sample runtimes. -/
def sampleAddress (name : String) (_args : List Arg) : Address :=
  if name = "Evidence" then 1
  else if name = "Arbitration" then 2
  else if name = "Escrow" then 3
  else if name = "DisputeResolution" then 4
  else 0

/-- A public test network on which every call succeeds. -/
def sepolia : Hre :=
  { networkName := "sepolia"
    parseEther := fun _ => 100000000000000000
    address := sampleAddress
    stops := fun _ => none }

/-- The in-process development network. -/
def hardhat : Hre := { sepolia with networkName := "hardhat" }

/-- The local development node. -/
def localhost : Hre := { sepolia with networkName := "localhost" }

/-- A runtime in which the Escrow deployment transaction reverts. -/
def escrowReverts : Hre :=
  { sepolia with
    stops := fun c =>
      if c = .deploy "Escrow" [] then some (.rejected "transaction reverted") else none }

/-- A runtime in which the promise of the verification task never settles
and leaves nothing scheduled. -/
def verifyNeverSettles : Hre :=
  { sepolia with
    stops := fun c =>
      if c = .run "verify:verify" 4 [.address 3, .address 1, .address 2]
      then some (.pending false) else none }

/-- A runtime in which the confirmation of the Evidence deployment never
comes while the provider keeps polling for it. -/
def evidenceNeverMined : Hre :=
  { sepolia with
    stops := fun c => if c = .deployed "Evidence" 1 then some (.pending true) else none }

/-! ## Contract surface

The contracts themselves (Evidence, Arbitration, Escrow, DisputeResolution)
are not among the sources; only the calls the tests make on them are.  The
definitions of this section model them from the data model, invariants and
call surface the spec lists.  A transaction that reverts yields `none`. -/

/-- Modelled from the spec: the identifier of a case (the contract storing
cases is missing), sequential and 1-based. -/
abbrev CaseId := Nat

/-- Modelled from the spec: the dispute-type enumeration of the missing
DisputeResolution contract, by its code; the tests use `0` for GENERAL. -/
abbrev DisputeType := Nat

/-- Modelled from the spec: the outcome enumeration of the missing Arbitration
contract, by its code; the tests use `1` for IN_FAVOR_PARTY_A. -/
abbrev DecisionOutcome := Nat

/-- Modelled from the spec: a case of the missing DisputeResolution contract,
with identifier, creator address, description, dispute type and assigned
arbitrator.  The lifecycle status, whose values the spec does not list, is
left out. -/
structure Case where
  id : CaseId
  creator : Address
  description : String
  disputeType : DisputeType
  assignedArbitrator : Option Address
deriving DecidableEq, Repr

/-- Modelled from the spec: an evidence record of the missing Evidence
contract, with case identifier, submitter and content hash.  The timestamp
is left out, the model having no clock. -/
structure EvidenceRecord where
  caseId : CaseId
  submitter : Address
  ipfsHash : String
deriving DecidableEq, Repr

/-- Modelled from the spec: the events of the missing contracts that the
tests look for. -/
inductive Event where
  | CaseCreated (caseId : CaseId)
deriving DecidableEq, Repr

/-- Modelled from the spec: the joint storage of the four missing contracts
as wired by the test fixture. -/
structure System where
  /-- Arbitration: the constructor parameter. -/
  minimumStake : Nat
  /-- DisputeResolution: the cases, oldest first. -/
  cases : List Case
  /-- Evidence: the records, oldest first. -/
  records : List EvidenceRecord
  /-- Arbitration: the amount each address has staked. -/
  stakes : Address → Nat
  /-- Arbitration: the decision recorded for each case, `0` when none. -/
  caseDecisions : CaseId → DecisionOutcome
  /-- Escrow: the value held for each case. -/
  escrowBalance : CaseId → Nat

/-- Modelled from the spec: the storage right after the test fixture has
deployed the four missing contracts. -/
def System.fresh (minimumStake : Nat) : System :=
  { minimumStake := minimumStake
    cases := []
    records := []
    stakes := fun _ => 0
    caseDecisions := fun _ => 0
    escrowBalance := fun _ => 0 }

/-- Modelled from the spec: `getCaseDetails(caseId)` of the missing
DisputeResolution contract. -/
def System.getCaseDetails (s : System) (caseId : CaseId) : Option Case :=
  s.cases.find? (fun c => c.id == caseId)

/-- Modelled from the spec: `createCase(description, disputeType)` of the
missing DisputeResolution contract; the new case takes the next identifier
and `CaseCreated` is emitted. -/
def System.createCase (s : System) (sender : Address) (description : String)
    (disputeType : DisputeType) : Option (System × List Event) :=
  let caseId := s.cases.length + 1
  some ({ s with cases := s.cases ++ [⟨caseId, sender, description, disputeType, none⟩] },
        [.CaseCreated caseId])

/-- Modelled from the spec: `submitEvidence(caseId, contentHash)` of the
missing DisputeResolution contract, passed through to Evidence; evidence is
associated only with an existing case. -/
def System.submitEvidence (s : System) (sender : Address) (caseId : CaseId)
    (ipfsHash : String) : Option (System × List Event) :=
  match s.getCaseDetails caseId with
  | none => none
  | some _ => some ({ s with records := s.records ++ [⟨caseId, sender, ipfsHash⟩] }, [])

/-- Modelled from the spec: `getCaseEvidence(caseId)` of the missing Evidence
contract. -/
def System.getCaseEvidence (s : System) (caseId : CaseId) : List EvidenceRecord :=
  s.records.filter (fun r => r.caseId == caseId)

/-- Modelled from the spec: `stakeTokens()` of the missing Arbitration
contract, payable. -/
def System.stakeTokens (s : System) (sender : Address) (value : Nat) :
    Option (System × List Event) :=
  some ({ s with stakes := Function.update s.stakes sender (s.stakes sender + value) }, [])

/-- Modelled from the spec: `assignArbitrator(caseId, arbitratorAddress)` of
the missing DisputeResolution contract; the arbitrator must meet the minimum
stake before being assigned. -/
def System.assignArbitrator (s : System) (_sender : Address) (caseId : CaseId)
    (arbitrator : Address) : Option (System × List Event) :=
  match s.getCaseDetails caseId with
  | none => none
  | some _ =>
    if s.minimumStake ≤ s.stakes arbitrator then
      some ({ s with cases := s.cases.map (fun c =>
                if c.id = caseId then { c with assignedArbitrator := some arbitrator } else c) },
            [])
    else none

/-- Modelled from the spec: `submitDecision(caseId, outcome)` of the missing
Arbitration contract; only the assigned arbitrator may submit. -/
def System.submitDecision (s : System) (sender : Address) (caseId : CaseId)
    (outcome : DecisionOutcome) : Option (System × List Event) :=
  match s.getCaseDetails caseId with
  | none => none
  | some c =>
    if c.assignedArbitrator = some sender then
      some ({ s with caseDecisions := Function.update s.caseDecisions caseId outcome }, [])
    else none

/-- Modelled from the spec: `depositFunds(caseId)` of the missing Escrow
contract, payable. -/
def System.depositFunds (s : System) (_sender : Address) (caseId : CaseId) (value : Nat) :
    Option (System × List Event) :=
  some ({ s with escrowBalance :=
            Function.update s.escrowBalance caseId (s.escrowBalance caseId + value) }, [])

/-- Modelled from the spec: a disbursement from the missing Escrow contract,
which cannot pay out more than it holds for the case.  The call surface the
spec lists has no name for it. -/
def System.disburseFunds (s : System) (caseId : CaseId) (amount : Nat) :
    Option (System × List Event) :=
  if amount ≤ s.escrowBalance caseId then
    some ({ s with escrowBalance :=
              Function.update s.escrowBalance caseId (s.escrowBalance caseId - amount) }, [])
  else none

/-- Modelled from the spec: `getEscrowBalance(caseId)` of the missing Escrow
contract. -/
def System.getEscrowBalance (s : System) (caseId : CaseId) : Nat :=
  s.escrowBalance caseId

/-- Modelled from the spec: a transaction on the missing contracts, with its
sender. -/
inductive Tx where
  | createCase (sender : Address) (description : String) (disputeType : DisputeType)
  | submitEvidence (sender : Address) (caseId : CaseId) (ipfsHash : String)
  | stakeTokens (sender : Address) (value : Nat)
  | assignArbitrator (sender : Address) (caseId : CaseId) (arbitrator : Address)
  | submitDecision (sender : Address) (caseId : CaseId) (outcome : DecisionOutcome)
  | depositFunds (sender : Address) (caseId : CaseId) (value : Nat)
  | disburseFunds (caseId : CaseId) (amount : Nat)
deriving DecidableEq, Repr

/-- Modelled from the spec: the effect of one transaction on the missing
contracts. -/
def System.step (s : System) : Tx → Option (System × List Event)
  | .createCase sender description disputeType => s.createCase sender description disputeType
  | .submitEvidence sender caseId ipfsHash => s.submitEvidence sender caseId ipfsHash
  | .stakeTokens sender value => s.stakeTokens sender value
  | .assignArbitrator sender caseId arbitrator => s.assignArbitrator sender caseId arbitrator
  | .submitDecision sender caseId outcome => s.submitDecision sender caseId outcome
  | .depositFunds sender caseId value => s.depositFunds sender caseId value
  | .disburseFunds caseId amount => s.disburseFunds caseId amount

/-- Modelled from the spec: a history of transactions on the missing
contracts; a transaction that reverts leaves the storage as it was. -/
def System.exec (s : System) : List Tx → System
  | [] => s
  | tx :: txs =>
    match s.step tx with
    | some (s', _) => s'.exec txs
    | none => s.exec txs

/-- The value a transaction deposits for a case. -/
def Tx.deposit (caseId : CaseId) : Tx → Nat
  | .depositFunds _ c value => if c = caseId then value else 0
  | _ => 0

/-- The value a transaction disburses from a case. -/
def Tx.disbursement (caseId : CaseId) : Tx → Nat
  | .disburseFunds c amount => if c = caseId then amount else 0
  | _ => 0

/-- The value a history deposited for a case: the sum over its transactions
that did not revert. -/
def System.deposited (s : System) (caseId : CaseId) : List Tx → Nat
  | [] => 0
  | tx :: txs =>
    match s.step tx with
    | some (s', _) => tx.deposit caseId + s'.deposited caseId txs
    | none => s.deposited caseId txs

/-- The value a history disbursed from a case: the sum over its transactions
that did not revert. -/
def System.disbursed (s : System) (caseId : CaseId) : List Tx → Nat
  | [] => 0
  | tx :: txs =>
    match s.step tx with
    | some (s', _) => tx.disbursement caseId + s'.disbursed caseId txs
    | none => s.disbursed caseId txs

/-- The test fixture of the Arbitration scenarios: an arbitrator (account 3)
stakes 0.1 ether on a system with that minimum stake, account 1 opens a case
and the owner (account 0) assigns the arbitrator to it. -/
def arbitrationFixture : System :=
  (System.fresh 100000000000000000).exec
    [.stakeTokens 3 100000000000000000,
     .createCase 1 "Test dispute" 0,
     .assignArbitrator 0 1 3]

/-- The test fixture of the Escrow scenario: account 1 opens a case. -/
def escrowFixture : System :=
  (System.fresh 100000000000000000).exec [.createCase 1 "Test dispute" 0]

/-! ## Script calculus -/

theorem bind_ok {α β : Type} (m : Script α) (f : α → Script β) (hre : Hre) (a : α)
    (h : (m hre).result = .ok a) :
    (m >>= f) hre = ⟨(m hre).effects ++ (f a hre).effects, (f a hre).result⟩ := by
  show Script.bind m f hre = _
  unfold Script.bind
  rcases hm : m hre with ⟨es, r⟩
  rw [hm] at h
  simp only at h
  subst h
  rfl

theorem bind_error {α β : Type} (m : Script α) (f : α → Script β) (hre : Hre) (e : Stop)
    (h : (m hre).result = .error e) :
    (m >>= f) hre = ⟨(m hre).effects, .error e⟩ := by
  show Script.bind m f hre = _
  unfold Script.bind
  rcases hm : m hre with ⟨es, r⟩
  rw [hm] at h
  simp only at h
  subst h
  rfl

theorem failStop_of_silent {α : Type} (m : Script α) (es : List Effect) (v : Hre → α)
    (hv : ∀ hre, v hre.quiet = v hre)
    (hm : ∀ hre, m hre = ⟨es, .ok (v hre)⟩)
    (hes : ∀ c, Effect.call c ∉ es) : FailStop m := by
  intro hre
  refine ⟨v hre, ?_, Or.inl ⟨?_, ?_, ?_⟩⟩
  · rw [hm, hv]
  · rw [hm]
  · rw [hm, hm]
  · intro c hc
    rw [hm] at hc
    exact absurd hc (hes c)

theorem failStop_pure {α : Type} (a : α) : FailStop (pure a : Script α) :=
  failStop_of_silent _ [] (fun _ => a) (fun _ => rfl) (fun _ => rfl) (by simp)

theorem failStop_consoleLog (line : String) (value : Option Address) :
    FailStop (consoleLog line value) :=
  failStop_of_silent _ [.log line value] (fun _ => ()) (fun _ => rfl) (fun _ => rfl) (by simp)

theorem failStop_parseEther (s : String) : FailStop (parseEther s) :=
  failStop_of_silent _ [] (fun hre => hre.parseEther s) (fun _ => rfl) (fun _ => rfl) (by simp)

theorem failStop_networkName : FailStop networkName :=
  failStop_of_silent _ [] (fun hre => hre.networkName) (fun _ => rfl) (fun _ => rfl) (by simp)

theorem failStop_call {α : Type} (m : Script α) (c : Call) (v : Hre → α)
    (hv : ∀ hre, v hre.quiet = v hre)
    (hm : ∀ hre, m hre = await c (v hre) hre) : FailStop m := by
  intro hre
  have hq : m hre.quiet = ⟨[.call c], .ok (v hre)⟩ := by
    rw [hm, hv]; rfl
  refine ⟨v hre, by rw [hq], ?_⟩
  rcases ht : hre.stops c with _ | e
  · have h : m hre = ⟨[.call c], .ok (v hre)⟩ := by
      rw [hm]; simp [await, ht]
    refine Or.inl ⟨by rw [h], by rw [h, hq], ?_⟩
    intro d hd
    rw [h] at hd
    simp only [List.mem_singleton, Effect.call.injEq] at hd
    rw [hd]; exact ht
  · have h : m hre = ⟨[.call c], .error e⟩ := by
      rw [hm]; simp [await, ht]
    refine Or.inr ⟨e, [], c, [], by rw [h], by rw [hq]; rfl, by rw [h]; rfl, ht, ?_⟩
    intro d hd
    simp at hd

theorem failStop_await {α : Type} (c : Call) (v : α) : FailStop (await c v) :=
  failStop_call _ c (fun _ => v) (fun _ => rfl) (fun _ => rfl)

theorem failStop_getContractFactory (name : String) : FailStop (getContractFactory name) :=
  failStop_await _ _

theorem failStop_deploy (f : ContractFactory) (args : List Arg) : FailStop (f.deploy args) :=
  failStop_call _ (.deploy f.name args) (fun hre => ⟨f.name, hre.address f.name args⟩)
    (fun _ => rfl) (fun _ => rfl)

theorem failStop_deployed (c : Contract) : FailStop c.deployed :=
  failStop_await _ _

theorem failStop_run (task : String) (address : Address) (args : List Arg) :
    FailStop (run task address args) :=
  failStop_await _ _

theorem failStop_bind {α β : Type} (m : Script α) (f : α → Script β)
    (hm : FailStop m) (hf : ∀ a, FailStop (f a)) : FailStop (m >>= f) := by
  intro hre
  obtain ⟨a, hqa, ha⟩ := hm hre
  obtain ⟨b, hqb, hb⟩ := hf a hre
  have hq := bind_ok m f hre.quiet a hqa
  refine ⟨b, by rw [hq]; exact hqb, ?_⟩
  rcases ha with ⟨hra, hea, hca⟩ | ⟨e, pre, c, post, hra, hqe, hea, hte, hpre⟩
  · have h := bind_ok m f hre a hra
    rcases hb with ⟨hrb, heb, hcb⟩ | ⟨e, pre, c, post, hrb, hqe, heb, hte, hpre⟩
    · refine Or.inl ⟨by rw [h]; exact hrb, by rw [h, hq]; simp only; rw [hea, heb], ?_⟩
      intro d hd
      rw [h] at hd
      rcases List.mem_append.1 hd with hd | hd
      · exact hca d hd
      · exact hcb d hd
    · refine Or.inr ⟨e, (m hre).effects ++ pre, c, post, by rw [h]; exact hrb, ?_, ?_, hte, ?_⟩
      · rw [hq]; simp only; rw [hqe, hea, List.append_assoc]
      · rw [h]; simp only; rw [heb, List.append_assoc]
      · intro d hd
        rcases List.mem_append.1 hd with hd | hd
        · exact hca d hd
        · exact hpre d hd
  · have h := bind_error m f hre e hra
    refine Or.inr ⟨e, pre, c, post ++ (f a hre.quiet).effects, by rw [h], ?_, ?_, hte, hpre⟩
    · rw [hq]; simp only; rw [hqe]; simp
    · rw [h]; exact hea

/-- The script `main` is fail-stop. -/
theorem failStop_main : FailStop main := by
  unfold main
  repeat' first
    | apply failStop_bind
    | intro _
    | apply failStop_consoleLog
    | apply failStop_getContractFactory
    | apply failStop_deploy
    | apply failStop_deployed
    | apply failStop_parseEther
    | apply failStop_networkName
    | apply failStop_run
    | apply failStop_pure
    | split

/-- The run of `main` when every call resolves. -/
theorem main_quiet (hre : Hre) :
    main hre.quiet =
      ⟨deploymentEffects hre ++
        (if hre.networkName = "hardhat" then [] else verificationEffects hre), .ok ()⟩ := by
  by_cases h : hre.networkName = "hardhat"
  · simp [main, bind, Script.bind, consoleLog, getContractFactory, ContractFactory.deploy,
      Contract.deployed, parseEther, networkName, run, await, Hre.quiet, h, pure, Script.pure,
      deploymentEffects, Hre.evidenceAddress, Hre.arbitrationAddress, Hre.escrowAddress,
      Hre.disputeResolutionAddress, Hre.wiring, Hre.minimumStake]
  · simp [main, bind, Script.bind, consoleLog, getContractFactory, ContractFactory.deploy,
      Contract.deployed, parseEther, networkName, run, await, Hre.quiet, h, pure, Script.pure,
      deploymentEffects, verificationEffects, Hre.evidenceAddress, Hre.arbitrationAddress,
      Hre.escrowAddress, Hre.disputeResolutionAddress, Hre.wiring, Hre.minimumStake]

/-- The effects of `main` when every call resolves. -/
theorem main_quiet_effects (hre : Hre) :
    (main hre.quiet).effects = deploymentEffects hre ++
        (if hre.networkName = "hardhat" then [] else verificationEffects hre) := by
  rw [main_quiet]

/-- The two ways a run of `main` can go: to the end, with the effects of the
quiet run, or up to the first call that does not resolve. -/
theorem main_cases (hre : Hre) :
    ((main hre).result = .ok () ∧ (main hre).effects = (main hre.quiet).effects ∧
        ∀ c, Effect.call c ∈ (main hre).effects → hre.stops c = none) ∨
    (∃ e k c, (main hre).result = .error e ∧
        (main hre.quiet).effects[k]? = some (Effect.call c) ∧ hre.stops c = some e ∧
        (main hre).effects = (main hre.quiet).effects.take (k + 1) ∧
        ∀ d, Effect.call d ∈ (main hre.quiet).effects.take k → hre.stops d = none) := by
  obtain ⟨a, -, h⟩ := failStop_main hre
  rcases h with ⟨hr, he, hc⟩ | ⟨e, pre, c, post, hr, hq, he, ht, hpre⟩
  · exact Or.inl ⟨hr, he, hc⟩
  · refine Or.inr ⟨e, pre.length, c, hr, ?_, ht, ?_, ?_⟩
    · rw [hq, List.getElem?_append_right (le_refl _)]; simp
    · rw [hq, he]; simp [List.take_append_eq_append_take]
    · rw [hq]; simpa using hpre

/-! ## The deployment script -/

/-- A run of `main` that returns performed the effects of the quiet run and
every call it issued resolved. -/
theorem main_ok (hre : Hre) (h : (main hre).result = .ok ()) :
    (main hre).effects = deploymentEffects hre ++
        (if hre.networkName = "hardhat" then [] else verificationEffects hre) ∧
    ∀ c, Effect.call c ∈ (main hre).effects → hre.stops c = none := by
  rcases main_cases hre with ⟨-, he, hc⟩ | ⟨e, k, c, hr, -⟩
  · exact ⟨by rw [he, main_quiet_effects], hc⟩
  · rw [hr] at h; cases h

/-- The top-level handler after a run of `main` that returned. -/
theorem deployScript_ok (hre : Hre) (h : (main hre).result = .ok ()) :
    deployScript hre = ⟨(main hre).effects ++ [.exit 0], some 0⟩ := by
  unfold deployScript
  rcases hm : main hre with ⟨es, r⟩
  rw [hm] at h
  simp only at h
  subst h
  rfl

/-- The top-level handler after a run of `main` that threw. -/
theorem deployScript_error (hre : Hre) (e : Err)
    (h : (main hre).result = .error (.rejected e)) :
    deployScript hre = ⟨(main hre).effects ++ [.error e, .exit 1], some 1⟩ := by
  unfold deployScript
  rcases hm : main hre with ⟨es, r⟩
  rw [hm] at h
  simp only at h
  subst h
  rfl

/-- The process when the promise of `main` never settles: no handler runs. -/
theorem deployScript_pending (hre : Hre) (keepsAlive : Bool)
    (h : (main hre).result = .error (.pending keepsAlive)) :
    deployScript hre = ⟨(main hre).effects, if keepsAlive then none else some 0⟩ := by
  unfold deployScript
  rcases hm : main hre with ⟨es, r⟩
  rw [hm] at h
  simp only at h
  subst h
  cases keepsAlive <;> rfl

/-- An element at an index below `n` is among the first `n` elements. -/
theorem mem_take_of_getElem? {α : Type} (l : List α) (k n : Nat) (x : α)
    (h : l[k]? = some x) (hk : k < n) : x ∈ l.take n := by
  rw [List.mem_iff_getElem?]
  exact ⟨k, by rw [List.getElem?_take_of_lt hk]; exact h⟩

/-- C1: in every run of `main` that returns, DisputeResolution is deployed
exactly once and with exactly three constructor arguments, the addresses of
the contracts that the Escrow, Evidence and Arbitration deployments made
earlier in the same run returned, in the order escrow, evidence,
arbitration. -/
theorem main_wires_deployed_addresses (hre : Hre) (h : (main hre).result = .ok ()) :
    ∃ (evidence arbitration escrow : Contract) (pre post : List Effect),
      (ContractFactory.deploy ⟨"Evidence"⟩ [] hre).result = .ok evidence ∧
      (ContractFactory.deploy ⟨"Arbitration"⟩ [.uint (hre.parseEther "0.1")] hre).result
        = .ok arbitration ∧
      (ContractFactory.deploy ⟨"Escrow"⟩ [] hre).result = .ok escrow ∧
      (main hre).effects = pre ++ Effect.call (.deploy "DisputeResolution"
          [.address escrow.address, .address evidence.address, .address arbitration.address])
          :: post ∧
      Effect.call (.deploy "Evidence" []) ∈ pre ∧
      Effect.call (.deploy "Arbitration" [.uint (hre.parseEther "0.1")]) ∈ pre ∧
      Effect.call (.deploy "Escrow" []) ∈ pre ∧
      ∀ args, Effect.call (.deploy "DisputeResolution" args) ∉ pre ++ post := by
  obtain ⟨he, hc⟩ := main_ok hre h
  have h1 : hre.stops (.deploy "Evidence" []) = none :=
    hc _ (by rw [he]; simp [deploymentEffects])
  have h2 : hre.stops (.deploy "Arbitration" [.uint (hre.parseEther "0.1")]) = none :=
    hc _ (by rw [he]; simp [deploymentEffects, Hre.minimumStake])
  have h3 : hre.stops (.deploy "Escrow" []) = none :=
    hc _ (by rw [he]; simp [deploymentEffects])
  refine ⟨⟨"Evidence", hre.evidenceAddress⟩, ⟨"Arbitration", hre.arbitrationAddress⟩,
    ⟨"Escrow", hre.escrowAddress⟩, (deploymentEffects hre).take 14,
    (deploymentEffects hre).drop 15 ++
      (if hre.networkName = "hardhat" then [] else verificationEffects hre),
    ?_, ?_, ?_, ?_, ?_, ?_, ?_, ?_⟩
  · simp [ContractFactory.deploy, await, h1, Hre.evidenceAddress]
  · simp [ContractFactory.deploy, await, h2, Hre.arbitrationAddress, Hre.minimumStake]
  · simp [ContractFactory.deploy, await, h3, Hre.escrowAddress]
  · rw [he]; simp [deploymentEffects, Hre.wiring]
  · simp [deploymentEffects]
  · simp [deploymentEffects, Hre.minimumStake]
  · simp [deploymentEffects]
  · intro args
    by_cases hn : hre.networkName = "hardhat" <;>
      simp [deploymentEffects, verificationEffects, hn]

/-- C1 at the sample test network. -/
theorem main_wires_deployed_addresses_witness :
    ∃ (evidence arbitration escrow : Contract) (pre post : List Effect),
      (ContractFactory.deploy ⟨"Evidence"⟩ [] sepolia).result = .ok evidence ∧
      (ContractFactory.deploy ⟨"Arbitration"⟩ [.uint (sepolia.parseEther "0.1")] sepolia).result
        = .ok arbitration ∧
      (ContractFactory.deploy ⟨"Escrow"⟩ [] sepolia).result = .ok escrow ∧
      (main sepolia).effects = pre ++ Effect.call (.deploy "DisputeResolution"
          [.address escrow.address, .address evidence.address, .address arbitration.address])
          :: post ∧
      Effect.call (.deploy "Evidence" []) ∈ pre ∧
      Effect.call (.deploy "Arbitration" [.uint (sepolia.parseEther "0.1")]) ∈ pre ∧
      Effect.call (.deploy "Escrow" []) ∈ pre ∧
      ∀ args, Effect.call (.deploy "DisputeResolution" args) ∉ pre ++ post :=
  main_wires_deployed_addresses sepolia (by rfl)

/-- C2: in every run of `main` in which no step throws, the calls that reach
the chain are, in order, the deployment of Evidence and its confirmation,
the deployment of Arbitration with the minimum stake and its confirmation,
the deployment of Escrow and its confirmation, the deployment of
DisputeResolution and its confirmation, and only then the verification task,
if any: four deployments, each contract once, each confirmed before the next
call is issued. -/
theorem main_deploys_in_order (hre : Hre) (h : (main hre).result = .ok ()) :
    (main hre).effects.filterMap Effect.deployment? =
      [("Evidence", []), ("Arbitration", [.uint (hre.parseEther "0.1")]), ("Escrow", []),
       ("DisputeResolution", hre.wiring)] ∧
    (main hre).effects =
      [.log "Starting deployment..." none,
       .call (.getContractFactory "Evidence"),
       .call (.deploy "Evidence" []),
       .call (.deployed "Evidence" hre.evidenceAddress),
       .log "Evidence deployed to:" (some hre.evidenceAddress),
       .call (.getContractFactory "Arbitration"),
       .call (.deploy "Arbitration" [.uint (hre.parseEther "0.1")]),
       .call (.deployed "Arbitration" hre.arbitrationAddress),
       .log "Arbitration deployed to:" (some hre.arbitrationAddress),
       .call (.getContractFactory "Escrow"),
       .call (.deploy "Escrow" []),
       .call (.deployed "Escrow" hre.escrowAddress),
       .log "Escrow deployed to:" (some hre.escrowAddress),
       .call (.getContractFactory "DisputeResolution"),
       .call (.deploy "DisputeResolution" hre.wiring),
       .call (.deployed "DisputeResolution" hre.disputeResolutionAddress),
       .log "DisputeResolution deployed to:" (some hre.disputeResolutionAddress)] ++
      (if hre.networkName = "hardhat" then []
       else [.log "Verifying contracts..." none,
             .call (.run "verify:verify" hre.disputeResolutionAddress hre.wiring)]) := by
  obtain ⟨he, -⟩ := main_ok hre h
  rw [he]
  by_cases hn : hre.networkName = "hardhat" <;>
    simp [deploymentEffects, verificationEffects, hn, Effect.deployment?, Hre.minimumStake]

/-- C2 at the sample test network. -/
theorem main_deploys_in_order_witness :
    (main sepolia).effects.filterMap Effect.deployment? =
      [("Evidence", []), ("Arbitration", [.uint 100000000000000000]), ("Escrow", []),
       ("DisputeResolution", [.address 3, .address 1, .address 2])] :=
  (main_deploys_in_order sepolia (by rfl)).1

/-- A call issued by `main` that does not resolve is the last one issued,
and the run stops the way that call does. -/
theorem main_stopped (hre : Hre) (c : Call) (stop : Stop)
    (hmem : Effect.call c ∈ (main hre).effects) (hstop : hre.stops c = some stop) :
    (main hre).result = .error stop := by
  rcases main_cases hre with ⟨-, -, hc⟩ | ⟨e, k, d, hr, hk, ht, he, hpre⟩
  · rw [hc c hmem] at hstop; cases hstop
  · rw [he, List.take_succ, hk] at hmem
    rcases List.mem_append.1 hmem with hmem | hmem
    · rw [hpre c hmem] at hstop; cases hstop
    · simp only [Option.toList, List.mem_singleton, Effect.call.injEq] at hmem
      subst hmem
      rw [ht] at hstop
      cases hstop
      exact hr

/-- A run of `main` that stopped issued a call that stops it that way. -/
theorem main_stopping_call (hre : Hre) (stop : Stop) (h : (main hre).result = .error stop) :
    ∃ c, Effect.call c ∈ (main hre).effects ∧ hre.stops c = some stop := by
  rcases main_cases hre with ⟨hr, -, -⟩ | ⟨e, k, d, hr, hk, ht, he, -⟩
  · rw [hr] at h; cases h
  · rw [hr] at h
    cases h
    exact ⟨d, by rw [he]; exact mem_take_of_getElem? _ k (k + 1) _ hk (Nat.lt_succ_self k), ht⟩

/-- C3 as stated fails: when the promise of the verification task never
settles and leaves nothing scheduled, no step throws and `main` does not
complete, neither handler runs and `process.exit` is not called, yet the
process ends with status 0. -/
theorem pending_exits_zero :
    (deployScript verifyNeverSettles).exitCode = some 0 ∧
    (main verifyNeverSettles).result = .error (.pending false) ∧
    (main verifyNeverSettles).result ≠ .ok () ∧
    (∀ c e, verifyNeverSettles.stops c ≠ some (.rejected e)) ∧
    Effect.exit 0 ∉ (deployScript verifyNeverSettles).effects := by
  refine ⟨rfl, rfl, ?_, ?_, by decide⟩
  · intro h
    have h2 : (main verifyNeverSettles).result = .error (.pending false) := rfl
    rw [h2] at h
    cases h
  · intro c e h
    simp only [verifyNeverSettles] at h
    split at h <;> cases h

/-- C3, amended: `main` completes exactly when every call it issued resolved,
and then the process calls `process.exit(0)`.  The process exits with code 1
exactly when one of the calls it issued (a factory lookup, a deployment, a
confirmation wait or the verification task) rejected, and then the error of
that call is written to standard error right before the exit.  When a call
never settles neither handler runs: the process performs nothing further and
either never ends or ends with status 0 once the event loop has drained.  So
when every issued call settles, the exit code is 0 exactly when `main`
completes without any step throwing; and no exit code other than 0 and 1
occurs. -/
theorem exit_code_iff_throw (hre : Hre) :
    ((main hre).result = .ok () ↔
      ∀ c, Effect.call c ∈ (main hre).effects → hre.stops c = none) ∧
    ((main hre).result = .ok () →
      deployScript hre = ⟨(main hre).effects ++ [.exit 0], some 0⟩) ∧
    ((deployScript hre).exitCode = some 1 ↔
      ∃ c e, Effect.call c ∈ (main hre).effects ∧ hre.stops c = some (.rejected e)) ∧
    (∀ c e, Effect.call c ∈ (main hre).effects → hre.stops c = some (.rejected e) →
      deployScript hre = ⟨(main hre).effects ++ [.error e, .exit 1], some 1⟩) ∧
    (∀ c keepsAlive, Effect.call c ∈ (main hre).effects →
      hre.stops c = some (.pending keepsAlive) →
      deployScript hre = ⟨(main hre).effects, if keepsAlive then none else some 0⟩) ∧
    ((∀ c keepsAlive, Effect.call c ∈ (main hre).effects →
        hre.stops c ≠ some (.pending keepsAlive)) →
      ((deployScript hre).exitCode = some 0 ↔ (main hre).result = .ok ()) ∧
      ((deployScript hre).exitCode = some 0 ∨ (deployScript hre).exitCode = some 1)) ∧
    ((deployScript hre).exitCode = some 0 ∨ (deployScript hre).exitCode = some 1 ∨
      (deployScript hre).exitCode = none) := by
  have hrejected : ∀ c e, Effect.call c ∈ (main hre).effects →
      hre.stops c = some (.rejected e) →
      deployScript hre = ⟨(main hre).effects ++ [.error e, .exit 1], some 1⟩ :=
    fun c e hmem hstop => deployScript_error hre e (main_stopped hre c _ hmem hstop)
  have hpending : ∀ c keepsAlive, Effect.call c ∈ (main hre).effects →
      hre.stops c = some (.pending keepsAlive) →
      deployScript hre = ⟨(main hre).effects, if keepsAlive then none else some 0⟩ :=
    fun c b hmem hstop => deployScript_pending hre b (main_stopped hre c _ hmem hstop)
  refine ⟨?_, deployScript_ok hre, ?_, hrejected, hpending, ?_, ?_⟩
  · constructor
    · intro h; exact (main_ok hre h).2
    · intro h
      rcases hr : (main hre).result with stop | u
      · obtain ⟨c, hmem, hstop⟩ := main_stopping_call hre stop hr
        rw [h c hmem] at hstop; cases hstop
      · rfl
  · constructor
    · intro h
      rcases hr : (main hre).result with stop | u
      · obtain ⟨c, hmem, hstop⟩ := main_stopping_call hre stop hr
        cases stop with
        | rejected e => exact ⟨c, e, hmem, hstop⟩
        | pending b =>
          rw [hpending c b hmem hstop] at h
          cases b <;> simp at h
      · rw [deployScript_ok hre hr] at h
        simp at h
    · rintro ⟨c, e, hmem, hstop⟩
      rw [hrejected c e hmem hstop]
  · intro hsettle
    rcases hr : (main hre).result with stop | u
    · obtain ⟨c, hmem, hstop⟩ := main_stopping_call hre stop hr
      cases stop with
      | rejected e =>
        rw [hrejected c e hmem hstop]
        simp
      | pending b => exact absurd hstop (hsettle c b hmem)
    · rw [deployScript_ok hre hr]
      simp
  · rcases hr : (main hre).result with stop | u
    · obtain ⟨c, hmem, hstop⟩ := main_stopping_call hre stop hr
      cases stop with
      | rejected e =>
        rw [hrejected c e hmem hstop]
        simp
      | pending b =>
        rw [hpending c b hmem hstop]
        cases b <;> simp
    · rw [deployScript_ok hre hr]
      simp

/-- C3, amended, at sample runtimes: exit code 0 on `sepolia`, where every
call resolves; exit code 1 with the error logged where the Escrow deployment
reverts; no exit where the Evidence confirmation never comes while the
provider keeps polling. -/
theorem exit_code_iff_throw_witness :
    (deployScript sepolia).exitCode = some 0 ∧
    deployScript escrowReverts =
      ⟨(main escrowReverts).effects ++ [.error "transaction reverted", .exit 1], some 1⟩ ∧
    deployScript evidenceNeverMined = ⟨(main evidenceNeverMined).effects, none⟩ :=
  ⟨((exit_code_iff_throw sepolia).2.2.2.2.2.1
      (by intro c b _ h; cases h)).1.2 rfl,
   (exit_code_iff_throw escrowReverts).2.2.2.1 (.deploy "Escrow" []) "transaction reverted"
      (by decide) rfl,
   (exit_code_iff_throw evidenceNeverMined).2.2.2.2.1 (.deployed "Evidence" 1) true
      (by decide) rfl⟩

/-- C4: when a step of `main` throws (the call at position `k` of the run in
which every call resolves rejects, and every call before it resolves), the
process performs exactly the effects of that run up to and including the
call, then writes the error to standard error and exits with status 1;
nothing after the call is performed and no effect is performed twice. -/
theorem main_fail_stop (hre : Hre) (k : Nat) (c : Call) (e : Err)
    (hk : (main hre.quiet).effects[k]? = some (Effect.call c))
    (hthrow : hre.stops c = some (.rejected e))
    (hbefore : ∀ d, Effect.call d ∈ (main hre.quiet).effects.take k → hre.stops d = none) :
    deployScript hre =
      ⟨(main hre.quiet).effects.take (k + 1) ++ [.error e, .exit 1], some 1⟩ ∧
    (deployScript hre).effects.Nodup := by
  have hnodup : ((main hre.quiet).effects ++ [Effect.error e, Effect.exit 1]).Nodup := by
    rw [main_quiet_effects]
    by_cases hn : hre.networkName = "hardhat" <;>
      simp [deploymentEffects, verificationEffects, hn]
  have hsub : ((main hre.quiet).effects.take (k + 1) ++ [Effect.error e, Effect.exit 1]).Nodup :=
    hnodup.sublist ((List.take_sublist _ _).append (List.Sublist.refl _))
  rcases main_cases hre with ⟨-, he, hc⟩ | ⟨e', k', c', hr, hk', ht', he', hpre'⟩
  · have hmem : Effect.call c ∈ (main hre).effects := by
      rw [he]; exact List.mem_iff_getElem?.2 ⟨k, hk⟩
    rw [hc c hmem] at hthrow; cases hthrow
  · have hkk : k = k' := by
      rcases Nat.lt_trichotomy k k' with hlt | heq | hgt
      · rw [hpre' c (mem_take_of_getElem? _ k k' _ hk hlt)] at hthrow; cases hthrow
      · exact heq
      · rw [hbefore c' (mem_take_of_getElem? _ k' k _ hk' hgt)] at ht'; cases ht'
    subst hkk
    rw [hk] at hk'
    simp only [Option.some.injEq, Effect.call.injEq] at hk'
    subst hk'
    rw [hthrow] at ht'
    simp only [Option.some.injEq] at ht'
    subst ht'
    have hd := deployScript_error hre e hr
    rw [he'] at hd
    rw [hd]
    exact ⟨rfl, hsub⟩

/-- C4 at the runtime in which the Escrow deployment reverts: the run stops
at that call. -/
theorem main_fail_stop_witness :
    deployScript escrowReverts =
      ⟨[.log "Starting deployment..." none,
        .call (.getContractFactory "Evidence"),
        .call (.deploy "Evidence" []),
        .call (.deployed "Evidence" 1),
        .log "Evidence deployed to:" (some 1),
        .call (.getContractFactory "Arbitration"),
        .call (.deploy "Arbitration" [.uint 100000000000000000]),
        .call (.deployed "Arbitration" 2),
        .log "Arbitration deployed to:" (some 2),
        .call (.getContractFactory "Escrow"),
        .call (.deploy "Escrow" []),
        .error "transaction reverted",
        .exit 1], some 1⟩ :=
  (main_fail_stop escrowReverts 10 (.deploy "Escrow" []) "transaction reverted"
    (by rfl) (by rfl)
    (by
      intro d hd
      rw [main_quiet_effects] at hd
      simp [deploymentEffects] at hd
      rcases hd with rfl | rfl | rfl | rfl | rfl | rfl | rfl <;> rfl)).1

/-- A run of `main` that got as far as logging the DisputeResolution address
performed every effect of the quiet run, and every deployment call
resolved. -/
theorem main_of_deployed (hre : Hre)
    (h : ∃ a, Effect.log "DisputeResolution deployed to:" (some a) ∈ (main hre).effects) :
    (main hre).effects = deploymentEffects hre ++
        (if hre.networkName = "hardhat" then [] else verificationEffects hre) ∧
    ∀ d, Effect.call d ∈ deploymentEffects hre → hre.stops d = none := by
  obtain ⟨a, h⟩ := h
  rcases main_cases hre with ⟨hr, -, -⟩ | ⟨e, k, c, hr, hk, ht, he, hpre⟩
  · obtain ⟨he, hc⟩ := main_ok hre hr
    refine ⟨he, fun d hd => hc d ?_⟩
    rw [he]
    exact List.mem_append_left _ hd
  · have hlt : k < (main hre.quiet).effects.length := by
      by_contra hge
      rw [List.getElem?_eq_none (Nat.le_of_not_lt hge)] at hk
      cases hk
    rw [he] at h
    rw [he]
    rw [main_quiet_effects] at hk hpre hlt h ⊢
    by_cases hn : hre.networkName = "hardhat"
    · simp only [hn, if_true, List.append_nil] at hk hpre hlt h ⊢
      simp only [deploymentEffects, List.length_cons, List.length_nil] at hlt
      interval_cases k <;> simp [deploymentEffects] at hk h
    · simp only [hn, if_false] at hk hpre hlt h ⊢
      simp only [deploymentEffects, verificationEffects, List.length_cons, List.length_nil,
        List.length_append] at hlt
      interval_cases k <;> simp [deploymentEffects, verificationEffects] at hk h
      refine ⟨by simp [deploymentEffects, verificationEffects], fun d hd => hpre d ?_⟩
      simp [deploymentEffects, verificationEffects] at hd ⊢
      tauto

/-- A run of `main` that issued a task run got past the four deployments. -/
theorem deployed_of_run (hre : Hre) (task : String) (address : Address) (args : List Arg)
    (h : Effect.call (.run task address args) ∈ (main hre).effects) :
    Effect.log "DisputeResolution deployed to:" (some hre.disputeResolutionAddress)
      ∈ (main hre).effects := by
  have hq : ∀ x, x ∈ (main hre).effects → x ∈ (main hre.quiet).effects := by
    intro x hx
    rcases main_cases hre with ⟨-, he, -⟩ | ⟨e, k, c, -, -, -, he, -⟩
    · rw [← he]; exact hx
    · rw [he] at hx; exact List.mem_of_mem_take hx
  have hrun := hq _ h
  rw [main_quiet_effects] at hrun
  have hn : hre.networkName ≠ "hardhat" := by
    intro hn
    simp [hn, deploymentEffects] at hrun
  rcases main_cases hre with ⟨-, he, -⟩ | ⟨e, k, c, hr, hk, ht, he, hpre⟩
  · rw [he, main_quiet_effects]
    simp [deploymentEffects]
  · have hlt : k < (main hre.quiet).effects.length := by
      by_contra hge
      rw [List.getElem?_eq_none (Nat.le_of_not_lt hge)] at hk
      cases hk
    rw [he] at h
    rw [he]
    rw [main_quiet_effects] at hk hlt h ⊢
    simp only [hn, if_false] at hk hlt h ⊢
    simp only [deploymentEffects, verificationEffects, List.length_cons, List.length_nil,
      List.length_append] at hlt
    interval_cases k <;> simp [deploymentEffects, verificationEffects] at hk h ⊢

/-- C5 as stated fails: `localhost` is a local development network, yet on
it `main` logs the verification line and runs the verification task. -/
theorem localhost_runs_verification :
    isLocalDevelopmentNetwork localhost.networkName = true ∧
    Effect.log "Verifying contracts..." none ∈ (main localhost).effects ∧
    Effect.call (.run "verify:verify" 4 [.address 3, .address 1, .address 2])
      ∈ (main localhost).effects := by
  decide

/-- C5, amended: in every run of `main` in which the four deployments
completed, the verification task is run if and only if `hre.network.name` is
not the string "hardhat".  On the network named "hardhat" no task is run and
no `Verifying contracts...` line is logged; on a network of any other name the
line is logged and the task `verify:verify` is run exactly once, after the
four deployments. -/
theorem verification_iff_not_hardhat (hre : Hre)
    (h : ∃ a, Effect.log "DisputeResolution deployed to:" (some a) ∈ (main hre).effects) :
    ((∃ task address args, Effect.call (.run task address args) ∈ (main hre).effects) ↔
      hre.networkName ≠ "hardhat") ∧
    (Effect.log "Verifying contracts..." none ∈ (main hre).effects ↔
      hre.networkName ≠ "hardhat") ∧
    (main hre).effects = deploymentEffects hre ++
      (if hre.networkName = "hardhat" then []
       else [.log "Verifying contracts..." none,
             .call (.run "verify:verify" hre.disputeResolutionAddress hre.wiring)]) ∧
    (∀ task address args, Effect.call (.run task address args) ∉ deploymentEffects hre) ∧
    (deploymentEffects hre).filterMap Effect.deployment? =
      [("Evidence", []), ("Arbitration", [.uint (hre.parseEther "0.1")]), ("Escrow", []),
       ("DisputeResolution", hre.wiring)] := by
  obtain ⟨he, -⟩ := main_of_deployed hre h
  rw [he]
  by_cases hn : hre.networkName = "hardhat" <;>
    simp [deploymentEffects, verificationEffects, hn, Effect.deployment?, Hre.minimumStake]

/-- C5, amended, at the sample networks: verification on `sepolia`, none on
`hardhat`. -/
theorem verification_iff_not_hardhat_witness :
    (main sepolia).effects = deploymentEffects sepolia ++
      [.log "Verifying contracts..." none,
       .call (.run "verify:verify" 4 [.address 3, .address 1, .address 2])] ∧
    (main hardhat).effects = deploymentEffects hardhat :=
  ⟨(verification_iff_not_hardhat sepolia ⟨4, by decide⟩).2.2.1,
   (verification_iff_not_hardhat hardhat ⟨4, by decide⟩).2.2.1⟩

/-- C6 fails on the code: on a network where verification runs, four
contracts are deployed (at the addresses 1, 2, 3 and 4 here) and a single
verification request is sent, for DisputeResolution at address 4; Evidence,
Arbitration and Escrow are never submitted. -/
theorem verification_submits_one_contract :
    (main sepolia).result = .ok () ∧
    (main sepolia).effects.filterMap Effect.deployment? =
      [("Evidence", []), ("Arbitration", [.uint 100000000000000000]), ("Escrow", []),
       ("DisputeResolution", [.address 3, .address 1, .address 2])] ∧
    (main sepolia).effects.filterMap Effect.verification? =
      [(4, [.address 3, .address 1, .address 2])] ∧
    sepolia.evidenceAddress = 1 ∧ sepolia.arbitrationAddress = 2 ∧
    sepolia.escrowAddress = 3 ∧ sepolia.disputeResolutionAddress = 4 :=
  ⟨rfl, by decide, by decide, rfl, rfl, rfl, rfl⟩

/-- C10: whenever `main` runs the verification task, the task is
`verify:verify`, the address it submits is the address of the
DisputeResolution contract deployed earlier in the same run, and the
constructor arguments it submits are the list that contract was deployed
with: escrow address, evidence address, arbitration address, in that order. -/
theorem verification_matches_deployment (hre : Hre) (task : String) (address : Address)
    (constructorArguments : List Arg)
    (h : Effect.call (.run task address constructorArguments) ∈ (main hre).effects) :
    ∃ (disputeResolution : Contract) (pre mid : List Effect),
      (ContractFactory.deploy ⟨"DisputeResolution"⟩ constructorArguments hre).result
        = .ok disputeResolution ∧
      (main hre).effects =
        pre ++ Effect.call (.deploy "DisputeResolution" constructorArguments) :: mid ++
          [Effect.call (.run task address constructorArguments)] ∧
      address = disputeResolution.address ∧
      constructorArguments =
        [.address hre.escrowAddress, .address hre.evidenceAddress,
         .address hre.arbitrationAddress] ∧
      task = "verify:verify" := by
  obtain ⟨he, hc⟩ := main_of_deployed hre ⟨_, deployed_of_run hre task address _ h⟩
  have ht : hre.stops (.deploy "DisputeResolution" hre.wiring) = none :=
    hc _ (by simp [deploymentEffects])
  rw [he] at h
  by_cases hn : hre.networkName = "hardhat"
  · simp [hn, deploymentEffects] at h
  · simp [hn, deploymentEffects, verificationEffects] at h
    obtain ⟨rfl, rfl, rfl⟩ := h
    refine ⟨⟨"DisputeResolution", hre.disputeResolutionAddress⟩,
      (deploymentEffects hre).take 14,
      (deploymentEffects hre).drop 15 ++ [.log "Verifying contracts..." none],
      ?_, ?_, rfl, rfl, rfl⟩
    · simp [ContractFactory.deploy, await, ht, Hre.disputeResolutionAddress]
    · rw [he]; simp [hn, deploymentEffects, verificationEffects]

/-- C10 at the sample test network. -/
theorem verification_matches_deployment_witness :
    ∃ (disputeResolution : Contract) (pre mid : List Effect),
      (ContractFactory.deploy ⟨"DisputeResolution"⟩
        [.address 3, .address 1, .address 2] sepolia).result = .ok disputeResolution ∧
      (main sepolia).effects =
        pre ++ Effect.call (.deploy "DisputeResolution" [.address 3, .address 1, .address 2])
          :: mid ++ [Effect.call (.run "verify:verify" 4 [.address 3, .address 1, .address 2])] ∧
      4 = disputeResolution.address ∧
      [Arg.address 3, .address 1, .address 2] =
        [.address sepolia.escrowAddress, .address sepolia.evidenceAddress,
         .address sepolia.arbitrationAddress] ∧
      "verify:verify" = "verify:verify" :=
  verification_matches_deployment sepolia "verify:verify" 4 [.address 3, .address 1, .address 2]
    (by decide)

/-! ## The contract surface -/

/-- A transaction leaves the numbering of the cases sequential and 1-based. -/
theorem step_ids (s s' : System) (tx : Tx) (events : List Event)
    (h : s.step tx = some (s', events))
    (hs : s.cases.map Case.id = List.range' 1 s.cases.length) :
    s'.cases.map Case.id = List.range' 1 s'.cases.length := by
  cases tx with
  | createCase sender description disputeType =>
    simp only [System.step, System.createCase, Option.some.injEq, Prod.mk.injEq] at h
    obtain ⟨rfl, -⟩ := h
    simp [hs, List.range'_concat, Nat.add_comm]
  | submitEvidence sender caseId ipfsHash =>
    simp only [System.step, System.submitEvidence] at h
    split at h
    · cases h
    · simp only [Option.some.injEq, Prod.mk.injEq] at h
      obtain ⟨rfl, -⟩ := h
      exact hs
  | stakeTokens sender value =>
    simp only [System.step, System.stakeTokens, Option.some.injEq, Prod.mk.injEq] at h
    obtain ⟨rfl, -⟩ := h
    exact hs
  | assignArbitrator sender caseId arbitrator =>
    simp only [System.step, System.assignArbitrator] at h
    split at h
    · cases h
    · split at h
      · simp only [Option.some.injEq, Prod.mk.injEq] at h
        obtain ⟨rfl, -⟩ := h
        have hid : (Case.id ∘ fun c : Case =>
            if c.id = caseId then { c with assignedArbitrator := some arbitrator } else c)
            = Case.id := by
          funext c
          simp only [Function.comp]
          split <;> rfl
        simp only [List.map_map, List.length_map, hid]
        exact hs
      · cases h
  | submitDecision sender caseId outcome =>
    simp only [System.step, System.submitDecision] at h
    split at h
    · cases h
    · split at h
      · simp only [Option.some.injEq, Prod.mk.injEq] at h
        obtain ⟨rfl, -⟩ := h
        exact hs
      · cases h
  | depositFunds sender caseId value =>
    simp only [System.step, System.depositFunds, Option.some.injEq, Prod.mk.injEq] at h
    obtain ⟨rfl, -⟩ := h
    exact hs
  | disburseFunds caseId amount =>
    simp only [System.step, System.disburseFunds] at h
    split at h
    · simp only [Option.some.injEq, Prod.mk.injEq] at h
      obtain ⟨rfl, -⟩ := h
      exact hs
    · cases h

/-- After any history the cases are numbered 1, 2, 3, ... in order of
creation. -/
theorem exec_ids (s : System) (txs : List Tx)
    (hs : s.cases.map Case.id = List.range' 1 s.cases.length) :
    (s.exec txs).cases.map Case.id = List.range' 1 (s.exec txs).cases.length := by
  induction txs generalizing s with
  | nil => exact hs
  | cons tx txs ih =>
    unfold System.exec
    rcases hstep : s.step tx with _ | ⟨s', events⟩
    · exact ih s hs
    · exact ih s' (step_ids s s' tx events hstep hs)

/-- Looking up the case just created finds it. -/
theorem getCaseDetails_new (s : System) (c : Case)
    (hs : s.cases.map Case.id = List.range' 1 s.cases.length)
    (hc : c.id = s.cases.length + 1) :
    ({ s with cases := s.cases ++ [c] } : System).getCaseDetails (s.cases.length + 1)
      = some c := by
  have hnone : s.cases.find? (fun x => x.id == s.cases.length + 1) = none := by
    rw [List.find?_eq_none]
    intro x hx
    have hmem : x.id ∈ s.cases.map Case.id := List.mem_map_of_mem _ hx
    rw [hs, List.mem_range'_1] at hmem
    simp only [beq_iff_eq]
    omega
  simp [System.getCaseDetails, List.find?_append, hnone, hc]

/-- C7: on a freshly deployed system, for every caller, description and
dispute type, the first `createCase` emits `CaseCreated` and creates the case
with identifier 1, whose creator, as `getCaseDetails(1)` reports it, is the
caller.  Identifiers are sequential and 1-based: after any history, the cases
are numbered 1, 2, 3, ... and `createCase` gives the new case the next
number, with the caller as creator. -/
theorem createCase_first (minimumStake : Nat) (caller : Address) (description : String)
    (disputeType : DisputeType) :
    (∃ s' c,
      (System.fresh minimumStake).createCase caller description disputeType
        = some (s', [Event.CaseCreated 1]) ∧
      s'.getCaseDetails 1 = some c ∧ c.id = 1 ∧ c.creator = caller) ∧
    (∀ txs : List Tx, ∃ s' c,
      ((System.fresh minimumStake).exec txs).cases.map Case.id =
        List.range' 1 ((System.fresh minimumStake).exec txs).cases.length ∧
      ((System.fresh minimumStake).exec txs).createCase caller description disputeType
        = some (s', [Event.CaseCreated
            (((System.fresh minimumStake).exec txs).cases.length + 1)]) ∧
      s'.getCaseDetails (((System.fresh minimumStake).exec txs).cases.length + 1) = some c ∧
      c.id = ((System.fresh minimumStake).exec txs).cases.length + 1 ∧
      c.creator = caller) := by
  constructor
  · exact ⟨_, ⟨1, caller, description, disputeType, none⟩, rfl, rfl, rfl, rfl⟩
  · intro txs
    have hids := exec_ids (System.fresh minimumStake) txs rfl
    exact ⟨_, ⟨_, caller, description, disputeType, none⟩, hids, rfl,
      getCaseDetails_new _ _ hids rfl, rfl, rfl⟩

/-- The escrow ledger: what a history leaves held for a case, plus what it
disbursed, is what was held before plus what it deposited. -/
theorem exec_escrow (s : System) (caseId : CaseId) (txs : List Tx) :
    (s.exec txs).getEscrowBalance caseId + s.disbursed caseId txs =
      s.getEscrowBalance caseId + s.deposited caseId txs := by
  induction txs generalizing s with
  | nil => rfl
  | cons tx txs ih =>
    unfold System.exec System.deposited System.disbursed
    rcases hstep : s.step tx with _ | ⟨s', events⟩
    · exact ih s
    · simp only
      have h := ih s'
      cases tx with
      | createCase sender description disputeType =>
        simp only [System.step, System.createCase, Option.some.injEq, Prod.mk.injEq] at hstep
        obtain ⟨rfl, -⟩ := hstep
        simp only [System.getEscrowBalance, Tx.deposit, Tx.disbursement] at h ⊢
        omega
      | submitEvidence sender c ipfsHash =>
        simp only [System.step, System.submitEvidence] at hstep
        split at hstep
        · cases hstep
        · simp only [Option.some.injEq, Prod.mk.injEq] at hstep
          obtain ⟨rfl, -⟩ := hstep
          simp only [System.getEscrowBalance, Tx.deposit, Tx.disbursement] at h ⊢
          omega
      | stakeTokens sender value =>
        simp only [System.step, System.stakeTokens, Option.some.injEq, Prod.mk.injEq] at hstep
        obtain ⟨rfl, -⟩ := hstep
        simp only [System.getEscrowBalance, Tx.deposit, Tx.disbursement] at h ⊢
        omega
      | assignArbitrator sender c arbitrator =>
        simp only [System.step, System.assignArbitrator] at hstep
        split at hstep
        · cases hstep
        · split at hstep
          · simp only [Option.some.injEq, Prod.mk.injEq] at hstep
            obtain ⟨rfl, -⟩ := hstep
            simp only [System.getEscrowBalance, Tx.deposit, Tx.disbursement] at h ⊢
            omega
          · cases hstep
      | submitDecision sender c outcome =>
        simp only [System.step, System.submitDecision] at hstep
        split at hstep
        · cases hstep
        · split at hstep
          · simp only [Option.some.injEq, Prod.mk.injEq] at hstep
            obtain ⟨rfl, -⟩ := hstep
            simp only [System.getEscrowBalance, Tx.deposit, Tx.disbursement] at h ⊢
            omega
          · cases hstep
      | depositFunds sender c value =>
        simp only [System.step, System.depositFunds, Option.some.injEq, Prod.mk.injEq] at hstep
        obtain ⟨rfl, -⟩ := hstep
        simp only [System.getEscrowBalance, Tx.deposit, Tx.disbursement] at h ⊢
        by_cases hc : c = caseId
        · subst hc
          simp only [Function.update_same, if_true] at h ⊢
          omega
        · simp only [Function.update_noteq (Ne.symm hc), hc, if_false] at h ⊢
          omega
      | disburseFunds c amount =>
        simp only [System.step, System.disburseFunds] at hstep
        split at hstep
        · rename_i hle
          simp only [Option.some.injEq, Prod.mk.injEq] at hstep
          obtain ⟨rfl, -⟩ := hstep
          simp only [System.getEscrowBalance, Tx.deposit, Tx.disbursement] at h ⊢
          by_cases hc : c = caseId
          · subst hc
            simp only [Function.update_same, if_true] at h ⊢
            omega
          · simp only [Function.update_noteq (Ne.symm hc), hc, if_false] at h ⊢
            omega
        · cases hstep

/-- C8: for every existing case with no prior deposits or disbursements and
every value `v`, `depositFunds(caseId)` with value `v` succeeds and afterwards
`getEscrowBalance(caseId)` is exactly `v`; after any history the escrow balance
of a case is the sum of its deposits minus the sum of its disbursements. -/
theorem depositFunds_balance (minimumStake : Nat) (txs : List Tx) (sender : Address)
    (caseId : CaseId) (v : Nat) (c : Case)
    (_hexists : ((System.fresh minimumStake).exec txs).getCaseDetails caseId = some c)
    (hdeposits : (System.fresh minimumStake).deposited caseId txs = 0)
    (hdisbursements : (System.fresh minimumStake).disbursed caseId txs = 0) :
    (∃ s' events,
      ((System.fresh minimumStake).exec txs).depositFunds sender caseId v = some (s', events) ∧
      s'.getEscrowBalance caseId = v) ∧
    (∀ (history : List Tx) (id : CaseId),
      ((System.fresh minimumStake).exec history).getEscrowBalance id =
        (System.fresh minimumStake).deposited id history -
          (System.fresh minimumStake).disbursed id history ∧
      (System.fresh minimumStake).disbursed id history ≤
        (System.fresh minimumStake).deposited id history) := by
  have hledger : ∀ (history : List Tx) (id : CaseId),
      ((System.fresh minimumStake).exec history).getEscrowBalance id +
        (System.fresh minimumStake).disbursed id history =
        (System.fresh minimumStake).deposited id history := by
    intro history id
    have h := exec_escrow (System.fresh minimumStake) id history
    simpa [System.fresh, System.getEscrowBalance] using h
  constructor
  · have h0 := hledger txs caseId
    rw [hdeposits, hdisbursements] at h0
    refine ⟨_, _, rfl, ?_⟩
    simp only [System.getEscrowBalance, Function.update_same] at h0 ⊢
    omega
  · intro history id
    have h := hledger history id
    omega

/-- C8 at the scenario of the Escrow test: one ether deposited for case 1. -/
theorem depositFunds_balance_witness :
    ∃ s' events,
      escrowFixture.depositFunds 1 1 1000000000000000000 = some (s', events) ∧
      s'.getEscrowBalance 1 = 1000000000000000000 :=
  (depositFunds_balance 100000000000000000 [.createCase 1 "Test dispute" 0] 1 1
    1000000000000000000 ⟨1, 1, "Test dispute", 0, none⟩ (by rfl) (by rfl) (by rfl)).1

/-- C9: for every case to which an arbitrator with at least the minimum stake
is assigned and every outcome `o`, `submitDecision(caseId, o)` sent by that
arbitrator succeeds and afterwards `caseDecisions(caseId)` is `o`; a
`submitDecision` for the case that succeeds was sent by the assigned
arbitrator. -/
theorem submitDecision_by_assigned (s : System) (caseId : CaseId) (arbitrator : Address)
    (o : DecisionOutcome) (c : Case)
    (hcase : s.getCaseDetails caseId = some c)
    (hassigned : c.assignedArbitrator = some arbitrator)
    (_hstake : s.minimumStake ≤ s.stakes arbitrator) :
    (∃ s' events,
      s.submitDecision arbitrator caseId o = some (s', events) ∧
      s'.caseDecisions caseId = o) ∧
    (∀ (sender : Address) (outcome : DecisionOutcome) (r : System × List Event),
      s.submitDecision sender caseId outcome = some r → sender = arbitrator) ∧
    (∀ (sender : Address) (id : CaseId) (outcome : DecisionOutcome)
        (r : System × List Event),
      s.submitDecision sender id outcome = some r →
        ∃ c', s.getCaseDetails id = some c' ∧ c'.assignedArbitrator = some sender) := by
  refine ⟨?_, ?_, ?_⟩
  · refine ⟨{ s with caseDecisions := Function.update s.caseDecisions caseId o }, [], ?_, ?_⟩
    · simp only [System.submitDecision, hcase, hassigned, if_true]
    · simp only [Function.update_same]
  · intro sender outcome r hr
    simp only [System.submitDecision, hcase, hassigned] at hr
    split at hr
    · rename_i heq
      simp only [Option.some.injEq] at heq
      exact heq.symm
    · cases hr
  · intro sender id outcome r hr
    simp only [System.submitDecision] at hr
    split at hr
    · cases hr
    · rename_i c' hc'
      split at hr
      · rename_i heq
        exact ⟨c', hc', heq⟩
      · cases hr

/-- C9 at the scenario of the Arbitration test: the staked arbitrator
assigned to case 1 submits outcome 1. -/
theorem submitDecision_by_assigned_witness :
    ∃ s' events,
      arbitrationFixture.submitDecision 3 1 1 = some (s', events) ∧
      s'.caseDecisions 1 = 1 :=
  (submitDecision_by_assigned arbitrationFixture 1 3 1 ⟨1, 1, "Test dispute", 0, some 3⟩
    (by rfl) (by rfl) (by decide)).1

/-! ## The scenarios of the test suite on the contract model -/

/-- The scenario `Should create a new case`. -/
theorem test_create_case :
    ∃ s' events c,
      (System.fresh 100000000000000000).createCase 1 "Test dispute" 0 = some (s', events) ∧
      Event.CaseCreated 1 ∈ events ∧ s'.getCaseDetails 1 = some c ∧ c.creator = 1 :=
  ⟨_, _, ⟨1, 1, "Test dispute", 0, none⟩, rfl, by decide, rfl, rfl⟩

/-- The scenario `Should allow evidence submission`. -/
theorem test_submit_evidence :
    ∃ s' events,
      escrowFixture.submitEvidence 1 1 "QmTest123" = some (s', events) ∧
      (s'.getCaseEvidence 1).head?.map EvidenceRecord.ipfsHash = some "QmTest123" :=
  ⟨_, _, rfl, by decide⟩

/-- The scenario `Should allow arbitrator assignment`. -/
theorem test_assign_arbitrator :
    (arbitrationFixture.getCaseDetails 1).map Case.assignedArbitrator = some (some 3) := by
  decide

end DisputeResolution
